import Mathlib

/-!
Verification of the task-boss repository: a shallow embedding of the task
lifecycle, SQL-level table operations, event fanout, registry and webhook
front-end, with theorems about the specified properties.
-/

namespace TaskBoss

/-- Model of a JavaScript runtime value (the payloads are JSON-like, but the
runtime also passes `undefined`, functions and `Error` instances through
`mapCompletionDataArg`).  An `error` carries its own property list
(in JS: the result of walking `Object.getOwnPropertyNames`). -/
inductive JSValue where
  | undef
  | null
  | bool (b : Bool)
  | num (q : ℚ)
  | str (s : String)
  | fn
  | arr (elems : List JSValue)
  | obj (props : List (String × JSValue))
  | error (props : List (String × JSValue))

namespace JSValue

/-- JS `x === null`. -/
def isNull : JSValue → Bool
  | .null => true
  | _ => false

/-- JS `typeof x === 'undefined'`. -/
def isUndef : JSValue → Bool
  | .undef => true
  | _ => false

/-- JS `typeof x === 'function'`. -/
def isFunction : JSValue → Bool
  | .fn => true
  | _ => false

/-- JS `typeof x === 'object'` (true for `null`, arrays, plain objects and
`Error` instances). -/
def isTypeofObject : JSValue → Bool
  | .null | .arr _ | .obj _ | .error _ => true
  | _ => false

/-- JS `Array.isArray(x)`. -/
def isArray : JSValue → Bool
  | .arr _ => true
  | _ => false

/-- JS `a ?? b` (nullish coalescing). -/
def coalesce (a b : JSValue) : JSValue :=
  if a.isNull || a.isUndef then b else a

/-- Property lookup `x.k` on an object-like value; `none` models `undefined`
for a missing key or a non-object receiver. -/
def get : JSValue → String → Option JSValue
  | .obj props, k => (props.find? (fun p => p.1 = k)).map (·.2)
  | .error props, k => (props.find? (fun p => p.1 = k)).map (·.2)
  | _, _ => none

/-- A freshly constructed JS `Error`: its own property names are
`stack` and `message`. -/
def newError (msg stack : String) : JSValue :=
  .error [("stack", .str stack), ("message", .str msg)]

end JSValue

/-- `replaceErrors` from `src/utils.ts`: flatten an `Error` instance into a
plain object of its own properties; leave every other value unchanged. -/
def replaceErrors : JSValue → JSValue
  | .error props => .obj props
  | v => v

/-- `mapCompletionDataArg` from `src/utils.ts`: `null`/`undefined`/functions
become `null`; non-array objects pass through; everything else is wrapped as
`{value: x}`; a top-level `Error` is flattened by `replaceErrors`. -/
def mapCompletionDataArg (data : JSValue) : JSValue :=
  if data.isNull || data.isUndef || data.isFunction then .null
  else
    let result := if data.isTypeofObject && !data.isArray then data else .obj [("value", data)]
    replaceErrors result

/-- `TASK_STATES` from `src/use/pg/plans.ts`: the totally ordered task states. -/
def TASK_STATES.created : Nat := 0
def TASK_STATES.retry : Nat := 1
def TASK_STATES.active : Nat := 2
def TASK_STATES.completed : Nat := 3
def TASK_STATES.expired : Nat := 4
def TASK_STATES.cancelled : Nat := 5
def TASK_STATES.failed : Nat := 6

/-- The `TaskConfig` stored in the `config` jsonb column (`src/use/pg/plans.ts`):
retry limit, retry delay (seconds), retry backoff flag and keep-in-seconds.
`ki_s` is optional because `resolve_tasks` applies `COALESCE` to it. -/
structure PgTaskConfig where
  r_l : Nat
  r_d : ℚ
  r_b : Bool
  ki_s : Option Int

/-- `MetaData` from `src/use/pg/plans.ts`: task name plus trigger trace. -/
inductive TaskTrace where
  | direct
  | event (t_id : String) (event_name : String)

structure MetaData where
  tn : String
  trace : Option TaskTrace

/-- `SelectTask` from `src/use/pg/plans.ts`: a row returned by `get_tasks`. -/
structure SelectTask where
  id : Nat
  retrycount : Nat
  state : Nat
  data : JSValue
  meta_data : MetaData
  config : PgTaskConfig
  expire_in_seconds : ℚ

/-- `ResolvedTask` from `src/use/pg/plans.ts`: the wire shape sent to the
`resolve_tasks` SQL function. -/
structure ResolvedTask where
  id : Nat
  s : Nat
  out : JSValue
  saf : Option ℚ

/-- `getStartAfter` from `src/use/pg/task.ts`: retry delay (with exponential
backoff when `r_b`) for the `retry` state, `undefined` otherwise. -/
def getStartAfter (task : SelectTask) (newState : Nat) : Option ℚ :=
  if newState = TASK_STATES.retry then
    some (if task.config.r_b then task.config.r_d * 2 ^ task.retrycount else task.config.r_d)
  else
    none

/-- The state/`start_after` synthesis of `resolveTask` in `src/use/pg/task.ts`:
on the success path the worker calls it with `err = null` (and the handler
result), on the failure path with the rejection value as `err`. -/
def resolveTask (task : SelectTask) (err : JSValue) (result : JSValue) : ResolvedTask :=
  let newState :=
    if err.isNull then TASK_STATES.completed
    else if task.config.r_l ≤ task.retrycount then TASK_STATES.failed
    else TASK_STATES.retry
  { out := mapCompletionDataArg (err.coalesce result)
    s := newState
    id := task.id
    saf := getStartAfter task newState }

/-! ### Database model

The five persistent tables from the migration store
(`src/use/pg/migrations.ts`), with `timestamptz` values modelled as
rationals (seconds). -/

abbrev Time := ℚ

/-- A row of the active `tasks` table. -/
structure TaskRow where
  id : Nat
  queue : String
  state : Nat
  data : JSValue
  meta_data : MetaData
  config : PgTaskConfig
  retrycount : Nat
  startedOn : Option Time
  createdOn : Time
  startAfter : Time
  /-- `expireIn interval`, in seconds. -/
  expireIn : Int
  singleton_key : Option String
  output : Option JSValue

/-- A row of the `tasks_completed` archive table. -/
structure ArchiveRow where
  id : Nat
  queue : String
  state : Nat
  data : JSValue
  meta_data : MetaData
  config : PgTaskConfig
  output : Option JSValue
  retrycount : Nat
  startedOn : Option Time
  createdOn : Time
  completedOn : Time
  keepUntil : Time

/-- A row of the `events` table. -/
structure EventRow where
  id : Nat
  event_name : String
  event_data : JSValue
  pos : Int
  created_at : Time
  expire_at : Time

/-- A row of the `cursors` table (constraint: `UNIQUE ("queue")`). -/
structure CursorRow where
  id : Nat
  queue : String
  offset : Int
  locked : Bool
  expire_lock_at : Option Time

/-- The database state relevant here, plus the `tasks` id serial. -/
structure DBState where
  tasks : List TaskRow
  archive : List ArchiveRow
  events : List EventRow
  cursors : List CursorRow
  nextTaskId : Nat

/-! ### `create_bus_tasks` -/

/-- `InsertTask` from `src/use/pg/plans.ts`: the wire shape consumed by the
`create_bus_tasks` SQL function. -/
structure InsertTask where
  q : String
  s : Option Nat
  d : JSValue
  md : MetaData
  cf : PgTaskConfig
  skey : Option String
  saf : Int
  eis : Int

/-- The row built by the `INSERT ... SELECT` inside `create_bus_tasks`. -/
def newTaskRow (now : Time) (id : Nat) (x : InsertTask) : TaskRow :=
  { id := id
    queue := x.q
    state := x.s.getD TASK_STATES.created
    data := x.d
    meta_data := x.md
    config := x.cf
    retrycount := 0
    startedOn := none
    createdOn := now
    startAfter := now + (x.saf : ℚ)
    expireIn := x.eis
    singleton_key := x.skey
    output := none }

/-- Whether inserting row `t` conflicts with an existing row `r` on the
partial unique index `(queue, singleton_key) WHERE state < expired`
(NULL keys never conflict; rows outside the partial index never conflict). -/
def singletonConflict (r t : TaskRow) : Bool :=
  match r.singleton_key, t.singleton_key with
  | some k1, some k2 =>
    r.queue == t.queue && k1 == k2 &&
      decide (r.state < TASK_STATES.expired) && decide (t.state < TASK_STATES.expired)
  | _, _ => false

/-- One row insert of `create_bus_tasks`: with `ON CONFLICT DO NOTHING`, a
row conflicting on the partial unique index is skipped, never an error; the
serial advances either way. -/
def insertBusTask (now : Time) (acc : DBState) (x : InsertTask) : DBState :=
  let row := newTaskRow now acc.nextTaskId x
  if acc.tasks.any (fun r => singletonConflict r row) then
    { acc with nextTaskId := acc.nextTaskId + 1 }
  else
    { acc with tasks := acc.tasks ++ [row], nextTaskId := acc.nextTaskId + 1 }

/-- `create_bus_tasks` from the migration SQL: insert each record in order;
each insert also sees the rows inserted earlier in the same statement. -/
def create_bus_tasks (now : Time) (xs : List InsertTask) (db : DBState) : DBState :=
  xs.foldl (insertBusTask now) db

/-- The rows of the `tasks` table matching the singleton filter
`queue = q AND singleton_key = k AND state < expired` of the partial unique
index. -/
def matchesSingleton (q k : String) (t : TaskRow) : Bool :=
  t.queue == q && t.singleton_key == some k && decide (t.state < TASK_STATES.expired)

/-- `COUNT(*) WHERE queue = q AND singleton_key = k AND state < expired`. -/
def singletonCount (db : DBState) (q k : String) : Nat :=
  (db.tasks.filter (matchesSingleton q k)).length

/-! ### `resolve_tasks` -/

/-- A `resolve_tasks` input record (`{id, s, out, saf}`). -/
structure ResolveInput where
  task_id : Nat
  new_state : Nat
  out : Option JSValue
  saf : Option Int

/-- Whether the `compl` CTE of `resolve_tasks` deletes row `t`: its id is
named by an input whose new state is greater than `active`, and the row is
currently `active`. -/
def resolveDeletes (inputs : List ResolveInput) (t : TaskRow) : Bool :=
  t.state == TASK_STATES.active &&
    inputs.any (fun i => i.task_id == t.id && decide (TASK_STATES.active < i.new_state))

/-- The archive row inserted for a deleted task joined with its input:
state from the input, output `COALESCE(_in.out, compl.output)`,
`keepUntil = now + COALESCE(config.ki_s, 7 days)`. -/
def archivedRow (now : Time) (t : TaskRow) (i : ResolveInput) : ArchiveRow :=
  { id := t.id
    queue := t.queue
    state := i.new_state
    data := t.data
    meta_data := t.meta_data
    config := t.config
    output := match i.out with | some o => some o | none => t.output
    retrycount := t.retrycount
    startedOn := t.startedOn
    createdOn := t.createdOn
    completedOn := now
    keepUntil := now + ((t.config.ki_s.getD (60 * 60 * 24 * 7) : Int) : ℚ) }

/-- The in-place `UPDATE` of `resolve_tasks`: a row named by an input with
`new_state = retry` while currently `active` moves back to `retry` with
`startAfter = now + saf` and the new output. -/
def retryUpdate (now : Time) (inputs : List ResolveInput) (t : TaskRow) : TaskRow :=
  match inputs.find? (fun i => i.task_id == t.id && i.new_state == TASK_STATES.retry) with
  | some i =>
    if t.state == TASK_STATES.active then
      { t with
        state := TASK_STATES.retry
        startAfter := now + ((i.saf.getD 0 : Int) : ℚ)
        output := i.out }
    else t
  | none => t

/-- `resolve_tasks` from the migration SQL: one CTE that (a) deletes active
rows whose new state is past `active`, (b) inserts each deleted row joined
with its input into `tasks_completed`, and (c) updates retry-bound active
rows in place. -/
def resolve_tasks (now : Time) (inputs : List ResolveInput) (db : DBState) : DBState :=
  let compl := db.tasks.filter (resolveDeletes inputs)
  let remaining := db.tasks.filter (fun t => !resolveDeletes inputs t)
  let archNew := compl.flatMap (fun t =>
    (inputs.filter (fun i => i.task_id == t.id)).map (archivedRow now t))
  { db with
    tasks := remaining.map (retryUpdate now inputs)
    archive := db.archive ++ archNew }

/-- A row for `id` exists in the active `tasks` table. -/
def hasTaskRow (db : DBState) (id : Nat) : Prop := ∃ t ∈ db.tasks, t.id = id

/-- A row for `id` exists in the `tasks_completed` archive. -/
def hasArchiveRow (db : DBState) (id : Nat) : Prop := ∃ a ∈ db.archive, a.id = id

/-- An active-table row for `id` exists with state in
`{created, retry, active}`. -/
def activeRowOk (db : DBState) (id : Nat) : Prop :=
  ∃ t ∈ db.tasks, t.id = id ∧ t.state ≤ TASK_STATES.active

/-- An archive row for `id` exists with a terminal state
(completed, expired, cancelled or failed). -/
def archiveRowTerminal (db : DBState) (id : Nat) : Prop :=
  ∃ a ∈ db.archive, a.id = id ∧
    TASK_STATES.completed ≤ a.state ∧ a.state ≤ TASK_STATES.failed

/-- Exactly one of: a terminal archive row for `id`, or a live active-table
row for `id`. -/
def taskExclusive (db : DBState) (id : Nat) : Prop :=
  (archiveRowTerminal db id ∧ ¬ hasTaskRow db id) ∨
  (activeRowOk db id ∧ ¬ hasArchiveRow db id)

/-- The task-store invariant: ids are unique in the active table (the
bigserial primary key) and every present id is in exactly one of the two
tables, live or terminally archived. -/
def resolveWf (db : DBState) : Prop :=
  (db.tasks.map (fun t => t.id)).Nodup ∧
  ∀ id, hasTaskRow db id ∨ hasArchiveRow db id → taskExclusive db id

/-! ### `get_tasks` -/

/-- The `UPDATE` half of `get_tasks`: mark a selected row active, stamp
`startedOn`, and increment `retrycount` exactly when leaving `retry`. -/
def startTaskRow (now : Time) (t : TaskRow) : TaskRow :=
  { t with
    state := TASK_STATES.active
    startedOn := some now
    retrycount := if t.state = TASK_STATES.retry then t.retrycount + 1 else t.retrycount }

/-- `get_tasks` from the migration SQL: select up to `amount` rows of the
queue with `startAfter < now` and `state < active`, ordered by `createdOn`
ascending, transition them to `active`, and return the updated rows. -/
def get_tasks (now : Time) (target_q : String) (amount : Nat) (db : DBState) :
    List TaskRow × DBState :=
  let eligible := db.tasks.filter (fun t =>
    t.queue == target_q && decide (t.startAfter < now) &&
      decide (t.state < TASK_STATES.active))
  let selected := (eligible.insertionSort (fun a b => a.createdOn ≤ b.createdOn)).take amount
  let selIds := selected.map (·.id)
  (selected.map (startTaskRow now),
   { db with
      tasks := db.tasks.map (fun t =>
        if selIds.contains t.id then startTaskRow now t else t) })

/-! ### Cursor plans and the fanout worker step -/

/-- `getCursorLockEvents` from `src/use/pg/plans.ts`: atomically select the
unlocked cursor row of `queue`, mark it locked with a lock TTL, and return up
to `limit` events with `pos > 0` and `pos > offset` in ascending `pos` order. -/
def getCursorLockEvents (now : Time) (queue : String) (limit : Nat)
    (expireLockInSec : Int) (db : DBState) : List EventRow × DBState :=
  match db.cursors.find? (fun c => c.queue == queue && !c.locked) with
  | none => ([], db)
  | some c =>
    (((db.events.filter (fun e =>
        decide (0 < e.pos) && decide (c.offset < e.pos))).insertionSort
          (fun a b => a.pos ≤ b.pos)).take limit,
     { db with
        cursors := db.cursors.map (fun r =>
          if r.id = c.id then
            { r with locked := true, expire_lock_at := some (now + (expireLockInSec : ℚ)) }
          else r) })

/-- `unlockCursor` from `src/use/pg/plans.ts`. -/
def unlockCursor (queue : String) (db : DBState) : DBState :=
  { db with
    cursors := db.cursors.map (fun c =>
      if c.queue = queue then { c with locked := false, expire_lock_at := none } else c) }

/-- `createTasksAndSetCursor` from `src/use/pg/plans.ts`: advance the cursor
of `queue` to `last_position`, unlock it, and insert the synthesized tasks in
the same statement. -/
def createTasksAndSetCursor (now : Time) (queue : String) (tasks : List InsertTask)
    (last_position : Int) (db : DBState) : DBState :=
  create_bus_tasks now tasks
    { db with
      cursors := db.cursors.map (fun c =>
        if c.queue = queue then { c with offset := last_position, locked := false } else c) }

/-- One pass of the fanout worker in `src/use/pg/with-pg.ts`: lock the cursor
and read the events past it; when none were read, unlock and report no more
work; otherwise project the events to tasks (the registry projection is
abstracted as `mapEvents`) and advance the cursor to the last event's `pos`. -/
def fanoutStep (now : Time) (queue : String) (fetchSize : Nat)
    (mapEvents : List EventRow → List InsertTask) (db : DBState) : Bool × DBState :=
  let res := getCursorLockEvents now queue fetchSize 30 db
  match res.1 with
  | [] => (false, unlockCursor queue res.2)
  | e :: es =>
    ((e :: es).length == fetchSize,
     createTasksAndSetCursor now queue (mapEvents (e :: es))
       ((e :: es).getLast (List.cons_ne_nil e es)).pos res.2)

/-- The inputs of one fanout pass: the wall clock, the worker's queue, the
fetch size, and the registry projection from events to insertable tasks. -/
structure FanoutParams where
  now : Time
  queue : String
  fetchSize : Nat
  mapEvents : List EventRow → List InsertTask

/-- A sequence of fanout passes (possibly for several queues), applied in
order. -/
def fanoutRun (ps : List FanoutParams) (db : DBState) : DBState :=
  ps.foldl (fun acc p => (fanoutStep p.now p.queue p.fetchSize p.mapEvents acc).2) db

/-! ### Task-boss registry (`src/task-boss.ts`, `src/definitions.ts`) -/

/-- The TypeScript `TaskConfig` (`src/definitions.ts`). -/
structure TaskConfig where
  retryLimit : Nat
  retryDelay : ℚ
  retryBackoff : Bool
  startAfterSeconds : Int
  expireInSeconds : Int
  singletonKey : Option String

/-- `Partial<TaskConfig>`: each field may be absent. -/
structure PartialTaskConfig where
  retryLimit : Option Nat := none
  retryDelay : Option ℚ := none
  retryBackoff : Option Bool := none
  startAfterSeconds : Option Int := none
  expireInSeconds : Option Int := none
  singletonKey : Option (Option String) := none

/-- `defaultTaskConfig` from `src/definitions.ts`. -/
def defaultTaskConfig : TaskConfig :=
  { retryLimit := 3
    retryDelay := 5
    retryBackoff := false
    startAfterSeconds := 0
    expireInSeconds := 60 * 5
    singletonKey := none }

/-- The object spread `{ ...base, ...p }`: fields present in `p` override. -/
def mergeTaskConfig (base : TaskConfig) (p : PartialTaskConfig) : TaskConfig :=
  { retryLimit := p.retryLimit.getD base.retryLimit
    retryDelay := p.retryDelay.getD base.retryDelay
    retryBackoff := p.retryBackoff.getD base.retryBackoff
    startAfterSeconds := p.startAfterSeconds.getD base.startAfterSeconds
    expireInSeconds := p.expireInSeconds.getD base.expireInSeconds
    singletonKey := p.singletonKey.getD base.singletonKey }

/-- An event handler's config: a static partial config or a function of the
event payload (`src/definitions.ts`, `EventHandler.config`). -/
inductive EventHandlerConfig where
  | static (p : PartialTaskConfig)
  | dynamic (f : JSValue → PartialTaskConfig)

/-- `typeof h.config === 'function' ? h.config(event.event_data) : h.config`. -/
def resolveHandlerConfig (c : EventHandlerConfig) (payload : JSValue) : PartialTaskConfig :=
  match c with
  | .static p => p
  | .dynamic f => f payload

/-- An entry of the registry's event-handler map: the binding created by
`on(eventDef, {task_name, handler, config})`; the handler function itself is
irrelevant to fanout. -/
structure EventHandlerRec where
  task_name : String
  event_name : String
  config : EventHandlerConfig

/-- `IncomingEvent` from `src/task-boss.ts`. -/
structure IncomingEvent where
  id : String
  event_name : String
  event_data : JSValue

/-- `OutgoingTask` from `src/task-boss.ts`. -/
structure OutgoingTask where
  task_name : String
  queue : String
  data : JSValue
  config : TaskConfig
  trace : Option TaskTrace

/-- The handlers bound to an event name.  The registry keeps a
`Map<event_name, handler[]>` filled by appending; looking a name up is
filtering the flat binding list by `event_name`. -/
def handlersFor (handlers : List EventHandlerRec) (event_name : String) :
    List EventHandlerRec :=
  handlers.filter (fun h => h.event_name == event_name)

/-- The object pushed by `eventsToTasks` for one event/handler pair: the
event payload as task data, an event trigger descriptor, and the resolved
config merged onto the default config. -/
def outgoingTaskFor (queue : String) (event : IncomingEvent)
    (h : EventHandlerRec) : OutgoingTask :=
  { data := event.event_data
    trace := some (.event event.id event.event_name)
    config := mergeTaskConfig defaultTaskConfig
      (resolveHandlerConfig h.config event.event_data)
    task_name := h.task_name
    queue := queue }

/-- `eventsToTasks` from `src/task-boss.ts`: a `reduce` that, for each event,
pushes one outgoing task per bound handler of the event's name.  No payload
validation happens here. -/
def eventsToTasks (queue : String) (handlers : List EventHandlerRec)
    (events : List IncomingEvent) : List OutgoingTask :=
  events.foldl
    (fun agg event =>
      agg ++ (handlersFor handlers event.event_name).map (outgoingTaskFor queue event))
    []

/-- `createInsertTask` from `src/use/pg/plans.ts`. -/
def createInsertTask (task : OutgoingTask) (keepInSeconds : Int) : InsertTask :=
  { d := task.data
    md := { tn := task.task_name, trace := task.trace }
    q := task.queue
    eis := task.config.expireInSeconds
    cf :=
      { r_b := task.config.retryBackoff
        r_d := task.config.retryDelay
        r_l := task.config.retryLimit
        ki_s := some keepInSeconds }
    saf := task.config.startAfterSeconds
    skey := task.config.singletonKey
    s := none }

/-! ### `resolveWithinSeconds` (`src/utils.ts`) -/

/-- The deadline of `resolveWithinSeconds`, in milliseconds:
`Math.max(0.01, seconds) * 1000`. -/
def resolveWithinSecondsTimeout (seconds : ℚ) : ℚ :=
  max (1 / 100) seconds * 1000

/-- The message of the rejection produced when the deadline fires:
the literal `handler execution exceeded ${timeout}ms`. -/
def resolveWithinSecondsErrorMessage (seconds : ℚ) : String :=
  "handler execution exceeded " ++ toString (resolveWithinSecondsTimeout seconds) ++ "ms"

/-! ### Webhook front-end (`src/use/webhook/index.ts`) -/

/-- An HTTP response body: plain text or a JSON-serialized value. -/
inductive HttpBody where
  | text (s : String)
  | json (j : JSValue)

/-- The environment of one `handle(req)` call: the handler's configuration
(`sign_secret`), the request's header and raw-body facts, and the settled
outcomes of the downstream effects.  `signature_matches` abstracts the
constant-time HMAC-SHA-256 comparison of the raw body; `parse_result` is the
outcome of `JSON.parse(body)`; `task_result` / `event_result` are the settled
outcomes of `client.onTask` / `client.onEvents`; `error_stack` is the stack
the runtime attaches to the `Error('unknown body')` thrown for a
non-envelope body; `type_error` is the `TypeError` instance the runtime
throws when `parsed.t` is read on a nullish `parsed` (e.g. the body `"null"`)
— its message and stack are environment-specific. -/
structure WebhookEnv where
  sign_secret : Option String
  header_signature : Option String
  signature_matches : Bool
  parse_result : Except JSValue JSValue
  task_result : Except JSValue JSValue
  event_result : Except JSValue Unit
  error_stack : String
  type_error : JSValue

/-- The strict-equality test `parsed.k === true` recognizing the task and
event envelopes, for a non-nullish `parsed` (property access on `null` or
`undefined` throws instead; `webhookDispatch` models that throw before
consulting this test). -/
def envelopeFlag (parsed : JSValue) (k : String) : Bool :=
  match parsed.get k with
  | some (.bool true) => true
  | _ => false

/-- The body dispatch of `handle` after the signature gate: parse, then route
on `parsed.t === true` / `parsed.e === true`.  Reading `parsed.t` on a
nullish `parsed` (JSON `null` parses fine) throws a `TypeError`; a body that
is neither envelope throws `Error('unknown body')`; every throw is caught
and serialized through `mapCompletionDataArg` with status 400; a settled
result is serialized the same way with status 200 (the event branch never
assigns `res`, so it serializes `undefined`). -/
def webhookDispatch (env : WebhookEnv) : Nat × HttpBody :=
  match env.parse_result with
  | .error e => (400, .json (mapCompletionDataArg e))
  | .ok parsed =>
    if parsed.isNull || parsed.isUndef then
      (400, .json (mapCompletionDataArg env.type_error))
    else if envelopeFlag parsed "t" then
      match env.task_result with
      | .ok r => (200, .json (mapCompletionDataArg r))
      | .error e => (400, .json (mapCompletionDataArg e))
    else if envelopeFlag parsed "e" then
      match env.event_result with
      | .ok _ => (200, .json (mapCompletionDataArg .undef))
      | .error e => (400, .json (mapCompletionDataArg e))
    else (400, .json (mapCompletionDataArg (JSValue.newError "unknown body" env.error_stack)))

/-- `handle` from `src/use/webhook/index.ts`: when a signing secret is
configured, reject a missing `x-body-signature` header with 403
`forbidden: missing x-body-signature` and a non-matching signature with 403
`forbidden: invalid signature`; otherwise dispatch on the parsed body. -/
def webhookHandle (env : WebhookEnv) : Nat × HttpBody :=
  match env.sign_secret with
  | none => webhookDispatch env
  | some _ =>
    match env.header_signature with
    | none => (403, .text "forbidden: missing x-body-signature")
    | some _ =>
      if env.signature_matches then webhookDispatch env
      else (403, .text "forbidden: invalid signature")

/-! ### PG-bound service configuration and lifecycle (`src/use/pg/with-pg.ts`,
`src/use/pg/maintaince.ts`) -/

/-- `maintanceQueue` from `src/use/pg/maintaince.ts`: the queue reserved for
the internal maintenance tasks. -/
def maintanceQueue : String := "__maintaince__"

/-- The queue-name guard at the top of `createPGTaskService`, before any
worker is created or started: the reserved maintenance queue throws
`cannot use a reserved queue name: ...`. -/
def createPGTaskServiceQueueCheck (queue : String) : Except String Unit :=
  if queue = maintanceQueue then
    .error ("cannot use a reserved queue name: " ++ queue)
  else
    .ok ()

/-- The `{started, stopped}` flags guarding `start`/`stop`. -/
structure ServiceState where
  started : Bool
  stopped : Bool

/-- The effects `start`/`stop` may perform, in order. -/
inductive ServiceEffect where
  | migrate
  | ensureCursor
  | startMaintenance
  | startTaskWorker
  | startFanout
  | stopWorkersAndFlush
  | cleanupDB

/-- The initial state of a freshly constructed service. -/
def initialServiceState : ServiceState := { started := false, stopped := false }

/-- `start()` of `createPGTaskService`: return immediately when already
started; otherwise set the flags and run migrations, ensure the queue
cursor, and start the maintenance, task and fanout workers. -/
def pgStart (s : ServiceState) : ServiceState × List ServiceEffect :=
  if s.started then (s, [])
  else
    ({ started := true, stopped := false },
     [.migrate, .ensureCursor, .startMaintenance, .startTaskWorker, .startFanout])

/-- `stop()` of `createPGTaskService`: return immediately when never started
or already stopped; otherwise stop all workers, flush the resolve batch,
close an owned pool, and finally clear `started`. -/
def pgStop (s : ServiceState) : ServiceState × List ServiceEffect :=
  if s.started = false || s.stopped = true then (s, [])
  else ({ started := false, stopped := true }, [.stopWorkersAndFlush, .cleanupDB])

end TaskBoss

/-! ## Theorems -/

namespace TaskBoss

/-- C1: for every popped task whose handler settles, the synthesized
resolution is: on success (`err = null`) `state = completed` with no
`start_after`; on failure, `state = failed` when `retrycount ≥ retry_limit`,
otherwise `state = retry` with `start_after = retry_delay * 2^retrycount`
seconds under backoff and `retry_delay` seconds without. -/
theorem resolveTask_state_spec (task : SelectTask) (err result : JSValue) :
    (err.isNull = true →
      (resolveTask task err result).s = TASK_STATES.completed ∧
      (resolveTask task err result).saf = none) ∧
    (err.isNull = false →
      (task.config.r_l ≤ task.retrycount →
        (resolveTask task err result).s = TASK_STATES.failed ∧
        (resolveTask task err result).saf = none) ∧
      (task.retrycount < task.config.r_l →
        (resolveTask task err result).s = TASK_STATES.retry ∧
        (resolveTask task err result).saf =
          some (if task.config.r_b then task.config.r_d * 2 ^ task.retrycount
                else task.config.r_d))) := by
  refine ⟨fun hnull => ?_, fun hnull => ⟨fun hge => ?_, fun hlt => ?_⟩⟩
  · simp [resolveTask, getStartAfter, hnull, TASK_STATES.completed, TASK_STATES.retry]
  · simp [resolveTask, getStartAfter, hnull, hge, TASK_STATES.failed, TASK_STATES.retry]
  · simp [resolveTask, getStartAfter, hnull, Nat.not_le.mpr hlt, TASK_STATES.retry]

/-- Witness for C1 at concrete inputs: a failing task with backoff, one retry
left (`retrycount = 1 < r_l = 3`), `r_d = 5`: resolves to `retry` with
`start_after = 5 * 2 = 10` seconds. -/
theorem resolveTask_state_spec_witness :
    (resolveTask
        { id := 7, retrycount := 1, state := 2, data := .null,
          meta_data := { tn := "t", trace := none },
          config := { r_l := 3, r_d := 5, r_b := true, ki_s := none },
          expire_in_seconds := 300 }
        (.str "boom") .undef).s = TASK_STATES.retry ∧
    (resolveTask
        { id := 7, retrycount := 1, state := 2, data := .null,
          meta_data := { tn := "t", trace := none },
          config := { r_l := 3, r_d := 5, r_b := true, ki_s := none },
          expire_in_seconds := 300 }
        (.str "boom") .undef).saf = some 10 := by
  have h := (resolveTask_state_spec
      { id := 7, retrycount := 1, state := 2, data := .null,
        meta_data := { tn := "t", trace := none },
        config := { r_l := 3, r_d := 5, r_b := true, ki_s := none },
        expire_in_seconds := 300 }
      (.str "boom") .undef).2 (by rfl)
  have h2 := h.2 (by decide)
  exact ⟨h2.1, h2.2.trans (by norm_num)⟩

/-- C9, counterexample: constructing the PG-bound bus with the queue name
`__maintenance__` does NOT throw — the reserved name in the code is the
differently spelled `__maintaince__`. -/
theorem queueCheck_maintenance_spelling_ok :
    createPGTaskServiceQueueCheck "__maintenance__" = .ok () := by
  rfl

/-- C9 (amended): constructing the PG-bound bus with the reserved maintenance
queue name `__maintaince__` as the instance queue fails with the
configuration error `cannot use a reserved queue name: __maintaince__`,
before any worker is started. -/
theorem queueCheck_reserved_queue_throws :
    createPGTaskServiceQueueCheck maintanceQueue =
      .error "cannot use a reserved queue name: __maintaince__" := by
  rfl

/-- C10: `start` is a no-op (no migrations, no workers) when already started;
`stop` is a no-op before any start or after a completed stop; a completed
stop clears `started`, so the next `start` performs the full startup
sequence again. -/
theorem pg_start_stop_guards (s : ServiceState) :
    (s.started = true → pgStart s = (s, [])) ∧
    (s.started = false ∨ s.stopped = true → pgStop s = (s, [])) ∧
    (s.started = true → s.stopped = false →
      pgStop s = ({ started := false, stopped := true }, [.stopWorkersAndFlush, .cleanupDB]) ∧
      pgStart (pgStop s).1 =
        ({ started := true, stopped := false },
         [.migrate, .ensureCursor, .startMaintenance, .startTaskWorker, .startFanout])) := by
  refine ⟨fun h => ?_, fun h => ?_, fun h1 h2 => ?_⟩
  · simp [pgStart, h]
  · rcases h with h | h <;> simp [pgStop, h]
  · constructor
    · simp [pgStop, h1, h2]
    · simp [pgStop, pgStart, h1, h2]

/-- Witness for C10 at the concrete running state `{started, ¬stopped}`:
stopping performs the shutdown effects and the following start performs the
full startup sequence. -/
theorem pg_start_stop_guards_witness :
    pgStop { started := true, stopped := false } =
      ({ started := false, stopped := true }, [.stopWorkersAndFlush, .cleanupDB]) ∧
    pgStart (pgStop { started := true, stopped := false }).1 =
      ({ started := true, stopped := false },
       [.migrate, .ensureCursor, .startMaintenance, .startTaskWorker, .startFanout]) :=
  (pg_start_stop_guards { started := true, stopped := false }).2.2 rfl rfl

/-- C7, counterexample: the deadline is not equal to the task's
`expire_in_seconds` — at `expire_in_seconds = 0` the race uses
`Math.max(0.01, 0) * 1000 = 10` milliseconds, not `0`. -/
theorem resolveWithinSeconds_clamps_deadline :
    resolveWithinSecondsTimeout 0 = 10 ∧ resolveWithinSecondsTimeout 0 ≠ 0 * 1000 := by
  norm_num [resolveWithinSecondsTimeout]

/-- C7 (amended): the handler is raced against a deadline of
`max(0.01, expire_in_seconds)` seconds — equal to `expire_in_seconds`
whenever that is at least `0.01` — and the deadline rejection carries the
message `handler execution exceeded <ms>ms`, `<ms>` being the deadline in
milliseconds. -/
theorem resolveWithinSeconds_deadline_message (s : ℚ) (h : 1 / 100 ≤ s) :
    resolveWithinSecondsTimeout s = s * 1000 ∧
    resolveWithinSecondsErrorMessage s =
      "handler execution exceeded " ++ toString (s * 1000) ++ "ms" := by
  have ht : resolveWithinSecondsTimeout s = s * 1000 := by
    rw [resolveWithinSecondsTimeout, max_eq_right h]
  exact ⟨ht, by rw [resolveWithinSecondsErrorMessage, ht]⟩

/-- Witness for C7 at the default `expire_in_seconds = 300`: the deadline is
300000 ms and the message is the corresponding literal. -/
theorem resolveWithinSeconds_deadline_message_witness :
    resolveWithinSecondsTimeout 300 = 300 * 1000 ∧
    resolveWithinSecondsErrorMessage 300 =
      "handler execution exceeded " ++ toString ((300 : ℚ) * 1000) ++ "ms" :=
  resolveWithinSeconds_deadline_message 300 (by norm_num)

/-- A `foldl` that appends per-element chunks to the accumulator is a
`flatMap`. -/
theorem foldl_append_eq_flatMap {α β : Type} (f : α → List β) (l : List α)
    (init : List β) :
    l.foldl (fun agg x => agg ++ f x) init = init ++ l.flatMap f := by
  induction l generalizing init with
  | nil => simp
  | cons a t ih => simp [ih, List.append_assoc]

/-- `eventsToTasks` unfolded to a `flatMap`. -/
theorem eventsToTasks_eq_flatMap (queue : String) (handlers : List EventHandlerRec)
    (events : List IncomingEvent) :
    eventsToTasks queue handlers events =
      events.flatMap (fun e =>
        (handlersFor handlers e.event_name).map (outgoingTaskFor queue e)) := by
  simpa [eventsToTasks] using
    foldl_append_eq_flatMap
      (fun e => (handlersFor handlers e.event_name).map (outgoingTaskFor queue e)) events []

/-- C5: `eventsToTasks` returns exactly one outgoing task per bound handler
whose `event_name` matches each event (the total count is the sum over
events of matching handlers); each task carries the event payload as its
data, a trigger descriptor of type `event` with the event's id and name, and
the config resolved through the static-or-function resolver merged onto the
default config; no payload schema validation is performed (the projection is
total on raw payloads). -/
theorem eventsToTasks_spec (Q : String) (hs : List EventHandlerRec)
    (evs : List IncomingEvent) :
    (eventsToTasks Q hs evs).length =
      (evs.map (fun e => (handlersFor hs e.event_name).length)).sum ∧
    ∀ t ∈ eventsToTasks Q hs evs, ∃ e ∈ evs, ∃ h ∈ hs,
      h.event_name = e.event_name ∧
      t.data = e.event_data ∧
      t.trace = some (.event e.id e.event_name) ∧
      t.config = mergeTaskConfig defaultTaskConfig
        (resolveHandlerConfig h.config e.event_data) ∧
      t.task_name = h.task_name ∧
      t.queue = Q := by
  rw [eventsToTasks_eq_flatMap]
  constructor
  · simp [Function.comp_def]
  · intro t ht
    rw [List.mem_flatMap] at ht
    obtain ⟨e, he, hmem⟩ := ht
    rw [List.mem_map] at hmem
    obtain ⟨h, hh, rfl⟩ := hmem
    have hh' := List.mem_filter.mp hh
    refine ⟨e, he, h, hh'.1, by simpa using hh'.2, rfl, rfl, rfl, rfl, rfl⟩

/-- Witness for C5 at one concrete event and one matching handler. -/
theorem eventsToTasks_spec_witness :
    ∃ e ∈ [({ id := "123", event_name := "ev", event_data := .str "d" } : IncomingEvent)],
      ∃ h ∈ [({ task_name := "t1", event_name := "ev", config := .static {} } : EventHandlerRec)],
        h.event_name = e.event_name ∧
        (outgoingTaskFor "q" { id := "123", event_name := "ev", event_data := .str "d" }
            { task_name := "t1", event_name := "ev", config := .static {} }).data = e.event_data ∧
        (outgoingTaskFor "q" { id := "123", event_name := "ev", event_data := .str "d" }
            { task_name := "t1", event_name := "ev", config := .static {} }).trace =
          some (.event e.id e.event_name) ∧
        (outgoingTaskFor "q" { id := "123", event_name := "ev", event_data := .str "d" }
            { task_name := "t1", event_name := "ev", config := .static {} }).config =
          mergeTaskConfig defaultTaskConfig (resolveHandlerConfig h.config e.event_data) ∧
        (outgoingTaskFor "q" { id := "123", event_name := "ev", event_data := .str "d" }
            { task_name := "t1", event_name := "ev", config := .static {} }).task_name =
          h.task_name ∧
        (outgoingTaskFor "q" { id := "123", event_name := "ev", event_data := .str "d" }
            { task_name := "t1", event_name := "ev", config := .static {} }).queue = "q" :=
  (eventsToTasks_spec "q"
      [{ task_name := "t1", event_name := "ev", config := .static {} }]
      [{ id := "123", event_name := "ev", event_data := .str "d" }]).2
    _ (List.mem_singleton_self _)

/-- C8, counterexample: for a well-signed request whose body is neither a
task nor an event envelope, the response is 400 but its JSON body is not the
bare object `{message: "unknown body"}` — the thrown `Error` is flattened
into its own properties, which also include `stack`. -/
theorem webhookHandle_unknown_body_not_bare_message :
    (webhookHandle
        { sign_secret := some "secret", header_signature := some "sig",
          signature_matches := true, parse_result := .ok (.obj []),
          task_result := .ok .undef, event_result := .ok (),
          error_stack := "Error: unknown body",
          type_error := JSValue.newError "Cannot read properties of null"
            "TypeError: Cannot read properties of null" }).1 = 400 ∧
    (webhookHandle
        { sign_secret := some "secret", header_signature := some "sig",
          signature_matches := true, parse_result := .ok (.obj []),
          task_result := .ok .undef, event_result := .ok (),
          error_stack := "Error: unknown body",
          type_error := JSValue.newError "Cannot read properties of null"
            "TypeError: Cannot read properties of null" }).2 ≠
      .json (.obj [("message", .str "unknown body")]) := by
  constructor
  · rfl
  · intro h
    simp [webhookHandle, webhookDispatch, envelopeFlag, mapCompletionDataArg,
      replaceErrors, JSValue.newError, JSValue.get, JSValue.isNull, JSValue.isUndef,
      JSValue.isFunction, JSValue.isTypeofObject, JSValue.isArray] at h

/-- C8 (amended): with a signing secret configured, a missing
`x-body-signature` header yields 403 `forbidden: missing x-body-signature`
and a non-matching signature yields 403 `forbidden: invalid signature`; a
well-signed body that parses to a non-nullish value that is neither a task
(`{t: true, ...}`) nor an event (`{e: true, ...}`) envelope yields 400 with
the JSON serialization of the flattened `Error('unknown body')` — an object
whose `message` property is `unknown body` (alongside the runtime `stack`);
a well-signed body that parses to `null` yields 400 with the serialized
`TypeError` thrown by reading `parsed.t` on `null`; a well-signed task
envelope whose handler resolves yields 200 with JSON body
`mapCompletionDataArg(result)`. -/
theorem webhookHandle_spec (env : WebhookEnv) :
    (env.sign_secret.isSome = true → env.header_signature = none →
      webhookHandle env = (403, .text "forbidden: missing x-body-signature")) ∧
    (env.sign_secret.isSome = true → env.header_signature.isSome = true →
      env.signature_matches = false →
      webhookHandle env = (403, .text "forbidden: invalid signature")) ∧
    (∀ parsed,
      (env.sign_secret = none ∨
        (env.header_signature.isSome = true ∧ env.signature_matches = true)) →
      env.parse_result = .ok parsed →
      parsed.isNull = false → parsed.isUndef = false →
      envelopeFlag parsed "t" = false →
      envelopeFlag parsed "e" = false →
      webhookHandle env =
        (400, .json (.obj [("stack", .str env.error_stack),
                           ("message", .str "unknown body")]))) ∧
    (∀ parsed,
      (env.sign_secret = none ∨
        (env.header_signature.isSome = true ∧ env.signature_matches = true)) →
      env.parse_result = .ok parsed →
      parsed.isNull = true ∨ parsed.isUndef = true →
      webhookHandle env = (400, .json (mapCompletionDataArg env.type_error))) ∧
    (∀ parsed r,
      (env.sign_secret = none ∨
        (env.header_signature.isSome = true ∧ env.signature_matches = true)) →
      env.parse_result = .ok parsed →
      envelopeFlag parsed "t" = true →
      env.task_result = .ok r →
      webhookHandle env = (200, .json (mapCompletionDataArg r))) := by
  obtain ⟨secret, header, sigm, parse, taskr, eventr, stack, terr⟩ := env
  have hauthCase :
      ∀ (P : Prop),
        (secret = none ∨ (header.isSome = true ∧ sigm = true)) →
        (webhookDispatch
            { sign_secret := secret, header_signature := header,
              signature_matches := sigm, parse_result := parse,
              task_result := taskr, event_result := eventr, error_stack := stack,
              type_error := terr } =
              webhookHandle
            { sign_secret := secret, header_signature := header,
              signature_matches := sigm, parse_result := parse,
              task_result := taskr, event_result := eventr, error_stack := stack,
              type_error := terr } →
          P) → P := by
    intro P hauth hk
    apply hk
    cases hauth with
    | inl h => subst h; rfl
    | inr h =>
      obtain ⟨hh, hm⟩ := h
      cases secret with
      | none => rfl
      | some s =>
        cases header with
        | none => simp at hh
        | some v => simp [webhookHandle, hm]
  refine ⟨fun hs hh => ?_, fun hs hh hm => ?_,
    fun parsed hauth hp hn hu ht he => ?_, fun parsed hauth hp hnn => ?_,
    fun parsed r hauth hp ht hr => ?_⟩
  · cases secret with
    | none => simp at hs
    | some s => subst hh; rfl
  · cases secret with
    | none => simp at hs
    | some s =>
      cases header with
      | none => simp at hh
      | some v =>
        have hm' : sigm = false := hm
        simp [webhookHandle, hm']
  · refine hauthCase _ hauth fun heq => ?_
    rw [← heq]
    subst hp
    have hn' : parsed.isNull = false := hn
    have hu' : parsed.isUndef = false := hu
    simp only [webhookDispatch]
    rw [if_neg (by simp [hn', hu']), if_neg (by simp [ht]), if_neg (by simp [he])]
    rfl
  · refine hauthCase _ hauth fun heq => ?_
    rw [← heq]
    subst hp
    simp only [webhookDispatch]
    rw [if_pos (by rcases hnn with h | h <;> simp [show _ = true from h])]
  · refine hauthCase _ hauth fun heq => ?_
    rw [← heq]
    subst hp
    have hr' : taskr = .ok r := hr
    have ht' : envelopeFlag parsed "t" = true := ht
    have hnotnullish : (parsed.isNull || parsed.isUndef) = false := by
      cases parsed <;>
        simp_all [envelopeFlag, JSValue.get, JSValue.isNull, JSValue.isUndef]
    simp only [webhookDispatch]
    rw [if_neg (by simp [hnotnullish]), if_pos (by simp [ht']), hr']

/-- Witness for C8: a concrete well-signed task envelope whose handler
resolved with `{ok: true}` produces 200 with the serialized result. -/
theorem webhookHandle_spec_witness :
    webhookHandle
        { sign_secret := some "secret", header_signature := some "sig",
          signature_matches := true,
          parse_result := .ok (.obj [("t", .bool true), ("b", .obj [])]),
          task_result := .ok (.obj [("ok", .bool true)]), event_result := .ok (),
          error_stack := "", type_error := .error [] } =
      (200, .json (mapCompletionDataArg (.obj [("ok", .bool true)]))) :=
  (webhookHandle_spec
      { sign_secret := some "secret", header_signature := some "sig",
        signature_matches := true,
        parse_result := .ok (.obj [("t", .bool true), ("b", .obj [])]),
        task_result := .ok (.obj [("ok", .bool true)]), event_result := .ok (),
        error_stack := "", type_error := .error [] }).2.2.2.2
    (.obj [("t", .bool true), ("b", .obj [])]) (.obj [("ok", .bool true)])
    (.inr ⟨rfl, rfl⟩) rfl rfl rfl

/-- The rows selected by `get_tasks` are eligible rows of the table. -/
theorem get_tasks_selected_sound (now : Time) (q : String) (amount : Nat)
    (db : DBState) :
    ∀ t ∈ ((db.tasks.filter (fun t =>
        t.queue == q && decide (t.startAfter < now) &&
          decide (t.state < TASK_STATES.active))).insertionSort
            (fun a b => a.createdOn ≤ b.createdOn)).take amount,
      t ∈ db.tasks ∧ t.queue = q ∧ t.startAfter < now ∧ t.state < TASK_STATES.active := by
  intro t ht
  have h1 := List.mem_of_mem_take ht
  rw [List.mem_insertionSort] at h1
  have h2 := List.mem_filter.mp h1
  refine ⟨h2.1, ?_, ?_, ?_⟩ <;> [skip; skip; skip] <;>
    · have := h2.2
      simp only [Bool.and_eq_true, beq_iff_eq, decide_eq_true_eq] at this
      tauto

/-- C4: the fetch-and-start operation returns no more rows than requested;
every returned row was a row of the queue with `state < active` (created or
retry) whose `start_after` has passed, and is returned with `state = active`,
`started_on = now`, and `retrycount` incremented exactly when the prior state
was `retry`; rows of the table are either untouched or transitioned from such
an eligible row. -/
theorem get_tasks_spec (now : Time) (q : String) (amount : Nat) (db : DBState)
    (hids : (db.tasks.map (fun t => t.id)).Nodup) :
    ((get_tasks now q amount db).1.length ≤ amount) ∧
    (∀ r ∈ (get_tasks now q amount db).1,
      r.state = TASK_STATES.active ∧ r.startedOn = some now ∧
      ∃ t ∈ db.tasks, t.queue = q ∧ t.startAfter < now ∧ t.state < TASK_STATES.active ∧
        r = startTaskRow now t ∧
        r.retrycount =
          (if t.state = TASK_STATES.retry then t.retrycount + 1 else t.retrycount)) ∧
    (∀ t' ∈ (get_tasks now q amount db).2.tasks,
      t' ∈ db.tasks ∨
      ∃ t ∈ db.tasks, t.queue = q ∧ t.startAfter < now ∧ t.state < TASK_STATES.active ∧
        t' = startTaskRow now t) := by
  refine ⟨?_, ?_, ?_⟩
  · simp [get_tasks]
  · intro r hr
    simp only [get_tasks, List.mem_map] at hr
    obtain ⟨t, ht, rfl⟩ := hr
    obtain ⟨htm, hq, hsa, hst⟩ := get_tasks_selected_sound now q amount db t ht
    exact ⟨rfl, rfl, t, htm, hq, hsa, hst, rfl, rfl⟩
  · intro t' ht'
    simp only [get_tasks, List.mem_map] at ht'
    obtain ⟨t, ht, rfl⟩ := ht'
    by_cases hc : (((db.tasks.filter (fun t =>
        t.queue == q && decide (t.startAfter < now) &&
          decide (t.state < TASK_STATES.active))).insertionSort
            (fun a b => a.createdOn ≤ b.createdOn)).take amount |>.map
              (fun t => t.id)).contains t.id
    · rw [if_pos hc]
      simp only [List.elem_eq_mem, decide_eq_true_eq, List.mem_map] at hc
      obtain ⟨s, hs, hsid⟩ := hc
      obtain ⟨hsm, hq, hsa, hst⟩ := get_tasks_selected_sound now q amount db s hs
      have hseq : s = t := List.inj_on_of_nodup_map hids hsm ht hsid
      subst hseq
      exact Or.inr ⟨s, hsm, hq, hsa, hst, rfl⟩
    · rw [if_neg (by simpa using hc)]
      exact Or.inl ht

/-- Witness for C4: a single-row table with one runnable retry task; the
fetch starts it, stamping `started_on` and incrementing `retrycount`. -/
theorem get_tasks_spec_witness :
    ((get_tasks 10 "q" 5
        { tasks := [{ id := 1, queue := "q", state := 1, data := .null,
                      meta_data := { tn := "t", trace := none },
                      config := { r_l := 3, r_d := 5, r_b := false, ki_s := none },
                      retrycount := 0, startedOn := none, createdOn := 0,
                      startAfter := 2, expireIn := 300, singleton_key := none,
                      output := none }],
          archive := [], events := [], cursors := [], nextTaskId := 2 }).1.length ≤ 5) :=
  (get_tasks_spec 10 "q" 5
      { tasks := [{ id := 1, queue := "q", state := 1, data := .null,
                    meta_data := { tn := "t", trace := none },
                    config := { r_l := 3, r_d := 5, r_b := false, ki_s := none },
                    retrycount := 0, startedOn := none, createdOn := 0,
                    startAfter := 2, expireIn := 300, singleton_key := none,
                    output := none }],
        archive := [], events := [], cursors := [], nextTaskId := 2 }
      (by simp)).1

/-- Two rows matching the same singleton filter conflict on the partial
unique index. -/
theorem singletonConflict_of_both_match {q k : String} {r t : TaskRow}
    (hr : matchesSingleton q k r = true) (ht : matchesSingleton q k t = true) :
    singletonConflict r t = true := by
  simp only [matchesSingleton, Bool.and_eq_true, beq_iff_eq, decide_eq_true_eq] at hr ht
  obtain ⟨⟨hrq, hrk⟩, hrs⟩ := hr
  obtain ⟨⟨htq, htk⟩, hts⟩ := ht
  unfold singletonConflict
  rw [hrk, htk]
  simp [hrq, htq, hrs, hts]

/-- A row conflicting with a row that matches the singleton filter matches
the filter itself. -/
theorem matchesSingleton_of_conflict {q k : String} {r row : TaskRow}
    (hrow : matchesSingleton q k row = true) (hc : singletonConflict r row = true) :
    matchesSingleton q k r = true := by
  simp only [matchesSingleton, Bool.and_eq_true, beq_iff_eq, decide_eq_true_eq] at hrow
  obtain ⟨⟨hq, hk⟩, hs⟩ := hrow
  unfold singletonConflict at hc
  cases hr : r.singleton_key with
  | none => rw [hr] at hc; simp at hc
  | some k1 =>
    rw [hr, hk] at hc
    simp only [Bool.and_eq_true, beq_iff_eq, decide_eq_true_eq] at hc
    obtain ⟨⟨⟨hcq, hck⟩, hcs⟩, _⟩ := hc
    simp [matchesSingleton, hcq, hq, hr, hck, hcs]

/-- Appending one row changes the singleton count by one exactly when the
new row matches the filter. -/
theorem singletonCount_insert (db : DBState) (row : TaskRow) (n : Nat) (q k : String) :
    singletonCount { db with tasks := db.tasks ++ [row], nextTaskId := n } q k =
      singletonCount db q k + (if matchesSingleton q k row then 1 else 0) := by
  simp only [singletonCount, List.filter_append, List.length_append]
  split <;> simp [List.filter, *]

/-- One `insertBusTask` step keeps every per-(queue, key) count at most 1. -/
theorem insertBusTask_singleton_le (now : Time) (db : DBState) (x : InsertTask)
    (q k : String) (h : singletonCount db q k ≤ 1) :
    singletonCount (insertBusTask now db x) q k ≤ 1 := by
  by_cases hc : (db.tasks.any fun r =>
      singletonConflict r (newTaskRow now db.nextTaskId x)) = true
  · simpa [insertBusTask, hc, singletonCount] using h
  · have hrw : insertBusTask now db x =
        { db with tasks := db.tasks ++ [newTaskRow now db.nextTaskId x],
                  nextTaskId := db.nextTaskId + 1 } := by
      simp [insertBusTask, hc]
    rw [hrw, singletonCount_insert]
    by_cases hm : matchesSingleton q k (newTaskRow now db.nextTaskId x) = true
    · rw [if_pos hm]
      have hzero : singletonCount db q k = 0 := by
        by_contra hpos
        obtain ⟨r, hrmem⟩ := List.exists_mem_of_length_pos (Nat.pos_of_ne_zero hpos)
        have hr := List.mem_filter.mp hrmem
        exact hc (List.any_eq_true.mpr
          ⟨r, hr.1, singletonConflict_of_both_match hr.2 hm⟩)
      omega
    · rw [if_neg hm]
      simpa using h

/-- `create_bus_tasks` keeps every per-(queue, key) count at most 1. -/
theorem create_bus_tasks_singleton_le (now : Time) (xs : List InsertTask) :
    ∀ db : DBState, (∀ q k, singletonCount db q k ≤ 1) →
      ∀ q k, singletonCount (create_bus_tasks now xs db) q k ≤ 1 := by
  induction xs with
  | nil => intro db h q k; simpa [create_bus_tasks] using h q k
  | cons x rest ih =>
    intro db h q k
    exact ih (insertBusTask now db x)
      (fun q' k' => insertBusTask_singleton_le now db x q' k' (h q' k')) q k

/-- C3: for every queue `Q` and non-null singleton key `K`, at most one row
with `queue = Q`, `singleton_key = K` and `state < expired` exists after any
`create_bus_tasks` call, provided it held before; and when two inserts race
on the same singleton key (two serialized `create_bus_tasks` calls against
the partial unique index with `ON CONFLICT DO NOTHING`), exactly one row
persists and neither call errors (the operation is total). -/
theorem create_bus_tasks_singleton_spec (now : Time) (xs : List InsertTask)
    (db : DBState) (hInv : ∀ q k, singletonCount db q k ≤ 1) :
    (∀ q k, singletonCount (create_bus_tasks now xs db) q k ≤ 1) ∧
    (∀ (t1 t2 : InsertTask) (n1 n2 : Time) (Q K : String),
      t1.q = Q → t2.q = Q → t1.skey = some K → t2.skey = some K →
      t1.s = none → t2.s = none →
      singletonCount db Q K = 0 →
      singletonCount (create_bus_tasks n2 [t2] (create_bus_tasks n1 [t1] db)) Q K = 1) := by
  refine ⟨create_bus_tasks_singleton_le now xs db hInv, ?_⟩
  intro t1 t2 n1 n2 Q K hq1 hq2 hk1 hk2 hs1 hs2 hzero
  have hm1 : matchesSingleton Q K (newTaskRow n1 db.nextTaskId t1) = true := by
    simp [matchesSingleton, newTaskRow, hq1, hk1, hs1, TASK_STATES.created,
      TASK_STATES.expired]
  have hnc1 : db.tasks.any
      (fun r => singletonConflict r (newTaskRow n1 db.nextTaskId t1)) = false := by
    by_contra hany
    obtain ⟨r, hrmem, hrc⟩ := List.any_eq_true.mp (Bool.of_not_eq_false hany)
    have hrm := matchesSingleton_of_conflict hm1 hrc
    have : r ∈ db.tasks.filter (matchesSingleton Q K) := List.mem_filter.mpr ⟨hrmem, hrm⟩
    have hlen := List.length_pos_of_mem this
    unfold singletonCount at hzero
    omega
  have hdb1 : create_bus_tasks n1 [t1] db =
      { db with tasks := db.tasks ++ [newTaskRow n1 db.nextTaskId t1],
                nextTaskId := db.nextTaskId + 1 } := by
    simp [create_bus_tasks, insertBusTask, hnc1]
  have hcount1 : singletonCount (create_bus_tasks n1 [t1] db) Q K = 1 := by
    rw [hdb1, singletonCount_insert, if_pos hm1, hzero]
  set db1 := create_bus_tasks n1 [t1] db with hdb1def
  have hm2 : matchesSingleton Q K (newTaskRow n2 db1.nextTaskId t2) = true := by
    simp [matchesSingleton, newTaskRow, hq2, hk2, hs2, TASK_STATES.created,
      TASK_STATES.expired]
  have hconf2 : db1.tasks.any
      (fun r => singletonConflict r (newTaskRow n2 db1.nextTaskId t2)) = true := by
    refine List.any_eq_true.mpr ⟨newTaskRow n1 db.nextTaskId t1, ?_, ?_⟩
    · rw [hdb1]; simp
    · exact singletonConflict_of_both_match hm1 hm2
  have : create_bus_tasks n2 [t2] db1 = { db1 with nextTaskId := db1.nextTaskId + 1 } := by
    simp [create_bus_tasks, insertBusTask, hconf2]
  rw [this]
  exact hcount1

/-- Witness for C3: two racing inserts of the same singleton `(Q, K)` into an
empty table leave exactly one matching row. -/
theorem create_bus_tasks_singleton_spec_witness :
    singletonCount
      (create_bus_tasks 1
        [{ q := "Q", s := none, d := .null, md := { tn := "t2", trace := none },
           cf := { r_l := 3, r_d := 5, r_b := false, ki_s := none },
           skey := some "K", saf := 0, eis := 300 }]
        (create_bus_tasks 0
          [{ q := "Q", s := none, d := .null, md := { tn := "t1", trace := none },
             cf := { r_l := 3, r_d := 5, r_b := false, ki_s := none },
             skey := some "K", saf := 0, eis := 300 }]
          { tasks := [], archive := [], events := [], cursors := [], nextTaskId := 1 }))
      "Q" "K" = 1 :=
  (create_bus_tasks_singleton_spec 0 []
      { tasks := [], archive := [], events := [], cursors := [], nextTaskId := 1 }
      (fun q k => by simp [singletonCount])).2
    { q := "Q", s := none, d := .null, md := { tn := "t1", trace := none },
      cf := { r_l := 3, r_d := 5, r_b := false, ki_s := none },
      skey := some "K", saf := 0, eis := 300 }
    { q := "Q", s := none, d := .null, md := { tn := "t2", trace := none },
      cf := { r_l := 3, r_d := 5, r_b := false, ki_s := none },
      skey := some "K", saf := 0, eis := 300 }
    0 1 "Q" "K" rfl rfl rfl rfl rfl rfl (by simp [singletonCount])

/-- `insertBusTask` never touches the `cursors` table. -/
theorem insertBusTask_cursors (now : Time) (acc : DBState) (x : InsertTask) :
    (insertBusTask now acc x).cursors = acc.cursors := by
  by_cases hc : (acc.tasks.any fun r =>
      singletonConflict r (newTaskRow now acc.nextTaskId x)) = true <;>
    simp [insertBusTask, hc]

/-- `create_bus_tasks` never touches the `cursors` table. -/
theorem create_bus_tasks_cursors (now : Time) (xs : List InsertTask) :
    ∀ db : DBState, (create_bus_tasks now xs db).cursors = db.cursors := by
  induction xs with
  | nil => intro db; rfl
  | cons x rest ih =>
    intro db
    calc (create_bus_tasks now (x :: rest) db).cursors
        = (create_bus_tasks now rest (insertBusTask now db x)).cursors := rfl
      _ = (insertBusTask now db x).cursors := ih _
      _ = db.cursors := insertBusTask_cursors now db x

/-- A fanout pass rewrites the cursor table through a row map that preserves
each row's queue and, for rows of the cursor table, never decreases the
offset. -/
theorem fanoutStep_cursors_shape (now : Time) (q : String) (fs : Nat)
    (mapE : List EventRow → List InsertTask) (db : DBState)
    (hwf : (db.cursors.map (fun c => c.queue)).Nodup) :
    ∃ g : CursorRow → CursorRow,
      (fanoutStep now q fs mapE db).2.cursors = db.cursors.map g ∧
      (∀ c, (g c).queue = c.queue) ∧
      (∀ c ∈ db.cursors, c.offset ≤ (g c).offset) := by
  unfold fanoutStep getCursorLockEvents
  cases hfind : db.cursors.find? (fun c => c.queue == q && !c.locked) with
  | none =>
    refine ⟨fun c => if c.queue = q then
        { c with locked := false, expire_lock_at := none } else c, ?_, ?_, ?_⟩
    · simp [unlockCursor]
    · intro c
      by_cases h : c.queue = q <;> simp [h]
    · intro c _
      by_cases h : c.queue = q <;> simp [h]
  | some c0 =>
    have hc0mem : c0 ∈ db.cursors := List.mem_of_find?_eq_some hfind
    have hc0pred := List.find?_some hfind
    simp only [Bool.and_eq_true, beq_iff_eq, Bool.not_eq_true'] at hc0pred
    cases hevs : (((db.events.filter (fun e =>
        decide (0 < e.pos) && decide (c0.offset < e.pos))).insertionSort
          (fun a b => a.pos ≤ b.pos)).take fs) with
    | nil =>
      refine ⟨fun c =>
        (fun r => if r.queue = q then
            { r with locked := false, expire_lock_at := none } else r)
          (if c.id = c0.id then
            { c with locked := true, expire_lock_at := some (now + ((30 : ℤ) : ℚ)) } else c),
        ?_, ?_, ?_⟩
      · simp [hevs, unlockCursor, List.map_map, Function.comp_def]
      · intro c
        by_cases h1 : c.id = c0.id <;> by_cases h2 : c.queue = q <;>
          simp [h1, h2]
      · intro c _
        by_cases h1 : c.id = c0.id <;> by_cases h2 : c.queue = q <;>
          simp [h1, h2]
    | cons e es =>
      have hlastmem : ((e :: es).getLast (List.cons_ne_nil e es)) ∈ e :: es :=
        List.getLast_mem _
      have hlastfacts :
          c0.offset < ((e :: es).getLast (List.cons_ne_nil e es)).pos := by
        have h1 : ((e :: es).getLast (List.cons_ne_nil e es)) ∈
            (db.events.filter (fun e =>
              decide (0 < e.pos) && decide (c0.offset < e.pos))) := by
          have hmem0 : ((e :: es).getLast (List.cons_ne_nil e es)) ∈
              ((db.events.filter (fun e =>
                decide (0 < e.pos) && decide (c0.offset < e.pos))).insertionSort
                  (fun a b => a.pos ≤ b.pos)).take fs := by
            rw [hevs]; exact hlastmem
          have := List.mem_of_mem_take hmem0
          rwa [List.mem_insertionSort] at this
        have := (List.mem_filter.mp h1).2
        simp only [Bool.and_eq_true, decide_eq_true_eq] at this
        exact this.2
      refine ⟨fun c =>
        (fun r => if r.queue = q then
            { r with offset := ((e :: es).getLast (List.cons_ne_nil e es)).pos,
                     locked := false } else r)
          (if c.id = c0.id then
            { c with locked := true, expire_lock_at := some (now + ((30 : ℤ) : ℚ)) } else c),
        ?_, ?_, ?_⟩
      · simp only [hevs, createTasksAndSetCursor, create_bus_tasks_cursors,
          List.map_map, Function.comp_def]
      · intro c
        by_cases h1 : c.id = c0.id <;> by_cases h2 : c.queue = q <;>
          simp [h1, h2]
      · intro c hcmem
        by_cases h2 : c.queue = q
        · have hceq : c = c0 :=
            List.inj_on_of_nodup_map hwf hcmem hc0mem (h2.trans hc0pred.1.symm)
          by_cases h1 : c.id = c0.id <;>
            · subst hceq
              simp [h1, h2]
              omega
        · by_cases h1 : c.id = c0.id <;> simp [h1, h2]

/-- Every event returned by `getCursorLockEvents` has `pos > 0` and is
strictly past the offset of the queue's (unlocked) cursor row. -/
theorem getCursorLockEvents_events_past_cursor (now : Time) (q : String)
    (fs : Nat) (els : Int) (db : DBState)
    (hwf : (db.cursors.map (fun c => c.queue)).Nodup) :
    ∀ e ∈ (getCursorLockEvents now q fs els db).1,
      0 < e.pos ∧
      ∀ c ∈ db.cursors, c.queue = q → c.locked = false → c.offset < e.pos := by
  unfold getCursorLockEvents
  cases hfind : db.cursors.find? (fun c => c.queue == q && !c.locked) with
  | none => intro e he; simp at he
  | some c0 =>
    intro e he
    have hc0mem : c0 ∈ db.cursors := List.mem_of_find?_eq_some hfind
    have hc0pred := List.find?_some hfind
    simp only [Bool.and_eq_true, beq_iff_eq, Bool.not_eq_true'] at hc0pred
    have he' : e ∈ db.events.filter (fun e =>
        decide (0 < e.pos) && decide (c0.offset < e.pos)) := by
      have := List.mem_of_mem_take he
      rwa [List.mem_insertionSort] at this
    have hp := (List.mem_filter.mp he').2
    simp only [Bool.and_eq_true, decide_eq_true_eq] at hp
    refine ⟨hp.1, fun c hc hq _ => ?_⟩
    have hceq : c = c0 :=
      List.inj_on_of_nodup_map hwf hc hc0mem (hq.trans hc0pred.1.symm)
    rw [hceq]
    exact hp.2

/-- The events returned by `getCursorLockEvents` are in ascending `pos`
order. -/
theorem getCursorLockEvents_sorted (now : Time) (q : String) (fs : Nat)
    (els : Int) (db : DBState) :
    List.Sorted (fun a b : EventRow => a.pos ≤ b.pos)
      (getCursorLockEvents now q fs els db).1 := by
  unfold getCursorLockEvents
  cases hfind : db.cursors.find? (fun c => c.queue == q && !c.locked) with
  | none => simp
  | some c0 =>
    haveI : IsTotal EventRow (fun a b => a.pos ≤ b.pos) :=
      ⟨fun a b => le_total a.pos b.pos⟩
    haveI : IsTrans EventRow (fun a b => a.pos ≤ b.pos) :=
      ⟨fun _ _ _ hab hbc => le_trans hab hbc⟩
    exact (List.sorted_insertionSort _ _).sublist (List.take_sublist _ _)

/-- When a fanout pass reads a non-empty batch, the queue's cursor is set to
the `pos` of the last event read, strictly greater than every previous
offset of that queue's cursor. -/
theorem fanoutStep_advances (now : Time) (q : String) (fs : Nat)
    (mapE : List EventRow → List InsertTask) (db : DBState)
    (hwf : (db.cursors.map (fun c => c.queue)).Nodup)
    (e : EventRow) (es : List EventRow)
    (hevs : (getCursorLockEvents now q fs 30 db).1 = e :: es) :
    ∀ c' ∈ (fanoutStep now q fs mapE db).2.cursors, c'.queue = q →
      c'.offset = ((e :: es).getLast (List.cons_ne_nil e es)).pos ∧
      ∀ c ∈ db.cursors, c.queue = q → c.offset < c'.offset := by
  intro c' hc' hq'
  have hlastpast := getCursorLockEvents_events_past_cursor now q fs 30 db hwf
    ((e :: es).getLast (List.cons_ne_nil e es))
    (by rw [hevs]; exact List.getLast_mem _)
  have hstep : (fanoutStep now q fs mapE db).2 =
      createTasksAndSetCursor now q (mapE (e :: es))
        ((e :: es).getLast (List.cons_ne_nil e es)).pos
        (getCursorLockEvents now q fs 30 db).2 := by
    unfold fanoutStep
    dsimp only
    rw [hevs]
  rw [hstep] at hc'
  simp only [createTasksAndSetCursor, create_bus_tasks_cursors, List.mem_map] at hc'
  obtain ⟨c1, hc1, hc1eq⟩ := hc'
  -- the intermediate cursor row keeps its queue and offset
  have hc1' : ∃ c2 ∈ db.cursors, c1.queue = c2.queue ∧ c1.offset = c2.offset := by
    unfold getCursorLockEvents at hc1
    cases hfind : db.cursors.find? (fun c => c.queue == q && !c.locked) with
    | none => rw [hfind] at hc1; exact ⟨c1, hc1, rfl, rfl⟩
    | some c0 =>
      rw [hfind] at hc1
      simp only [List.mem_map] at hc1
      obtain ⟨c2, hc2, hc2eq⟩ := hc1
      refine ⟨c2, hc2, ?_, ?_⟩ <;> rw [← hc2eq] <;> split <;> rfl
  obtain ⟨c2, hc2, hq12, hoff12⟩ := hc1'
  by_cases hcq : c1.queue = q
  · constructor
    · rw [← hc1eq, if_pos hcq]
    · intro c hc hcq2
      have hfind0 : ∃ c0, db.cursors.find? (fun c => c.queue == q && !c.locked) = some c0 := by
        unfold getCursorLockEvents at hevs
        cases hfind : db.cursors.find? (fun c => c.queue == q && !c.locked) with
        | none => rw [hfind] at hevs; simp at hevs
        | some c0 => exact ⟨c0, rfl⟩
      obtain ⟨c0, hfind⟩ := hfind0
      have hc0mem : c0 ∈ db.cursors := List.mem_of_find?_eq_some hfind
      have hc0pred := List.find?_some hfind
      simp only [Bool.and_eq_true, beq_iff_eq, Bool.not_eq_true'] at hc0pred
      have hceq : c = c0 :=
        List.inj_on_of_nodup_map hwf hc hc0mem (hcq2.trans hc0pred.1.symm)
      rw [← hc1eq, if_pos hcq]
      rw [hceq]
      exact hlastpast.2 c0 hc0mem hc0pred.1 hc0pred.2
  · exfalso
    apply hcq
    rw [← hq']
    rw [← hc1eq, if_neg hcq]

/-- Over any sequence of fanout passes, no queue's cursor offset ever
decreases. -/
theorem fanoutRun_offsets_monotone :
    ∀ (ps : List FanoutParams) (db : DBState),
      (db.cursors.map (fun c => c.queue)).Nodup →
      ∀ c' ∈ (fanoutRun ps db).cursors, ∀ c ∈ db.cursors,
        c'.queue = c.queue → c.offset ≤ c'.offset := by
  intro ps
  induction ps with
  | nil =>
    intro db hwf c' hc' c hc hq
    have hc'0 : c' ∈ db.cursors := hc'
    have : c' = c := List.inj_on_of_nodup_map hwf hc'0 hc hq
    rw [this]
  | cons p rest ih =>
    intro db hwf c' hc' c hc hq
    obtain ⟨g, hshape, hq_pres, hoff⟩ :=
      fanoutStep_cursors_shape p.now p.queue p.fetchSize p.mapEvents db hwf
    have hwf' : (((fanoutStep p.now p.queue p.fetchSize p.mapEvents db).2.cursors).map
        (fun c => c.queue)).Nodup := by
      rw [hshape, List.map_map]
      have hfuneq : ((fun c : CursorRow => c.queue) ∘ g) = fun c : CursorRow => c.queue :=
        funext fun c => hq_pres c
      rw [hfuneq]
      exact hwf
    have hc'run : c' ∈ (fanoutRun rest
        (fanoutStep p.now p.queue p.fetchSize p.mapEvents db).2).cursors := hc'
    have hgc : g c ∈ (fanoutStep p.now p.queue p.fetchSize p.mapEvents db).2.cursors := by
      rw [hshape]; exact List.mem_map_of_mem g hc
    have h1 : (g c).offset ≤ c'.offset :=
      ih _ hwf' c' hc'run (g c) hgc (hq.trans (hq_pres c).symm)
    exact le_trans (hoff c hc) h1

/-- C6: per-queue cursor monotonicity.  (1) Over every sequence of fanout
passes, each queue's cursor offset is non-decreasing.  (2) A pass only reads
events with `pos` strictly greater than the queue's current cursor offset,
(3) in ascending `pos` order, and (4) when it advances the cursor it sets
the offset to the `pos` of the last event read, which is strictly greater
than the previous offset. -/
theorem fanout_cursor_monotone (db : DBState)
    (hwf : (db.cursors.map (fun c => c.queue)).Nodup) :
    (∀ ps : List FanoutParams, ∀ c' ∈ (fanoutRun ps db).cursors,
      ∀ c ∈ db.cursors, c'.queue = c.queue → c.offset ≤ c'.offset) ∧
    (∀ (now : Time) (q : String) (fs : Nat),
      ∀ e ∈ (getCursorLockEvents now q fs 30 db).1,
        0 < e.pos ∧
        ∀ c ∈ db.cursors, c.queue = q → c.locked = false → c.offset < e.pos) ∧
    (∀ (now : Time) (q : String) (fs : Nat),
      List.Sorted (fun a b : EventRow => a.pos ≤ b.pos)
        (getCursorLockEvents now q fs 30 db).1) ∧
    (∀ (now : Time) (q : String) (fs : Nat)
      (mapE : List EventRow → List InsertTask) (e : EventRow) (es : List EventRow),
      (getCursorLockEvents now q fs 30 db).1 = e :: es →
      ∀ c' ∈ (fanoutStep now q fs mapE db).2.cursors, c'.queue = q →
        c'.offset = ((e :: es).getLast (List.cons_ne_nil e es)).pos ∧
        ∀ c ∈ db.cursors, c.queue = q → c.offset < c'.offset) :=
  ⟨fun ps => fanoutRun_offsets_monotone ps db hwf,
   fun now q fs => getCursorLockEvents_events_past_cursor now q fs 30 db hwf,
   fun now q fs => getCursorLockEvents_sorted now q fs 30 db,
   fun now q fs mapE e es hevs => fanoutStep_advances now q fs mapE db hwf e es hevs⟩

/-- Witness for C6 at a concrete database: one unlocked cursor at offset 0
and one event at `pos = 1`; the event read is strictly past the cursor. -/
theorem fanout_cursor_monotone_witness :
    0 < ({ id := 5, event_name := "ev", event_data := .null, pos := 1,
           created_at := 0, expire_at := 100 } : EventRow).pos ∧
    ∀ c ∈ ({ tasks := [], archive := [],
             events := [{ id := 5, event_name := "ev", event_data := .null, pos := 1,
                          created_at := 0, expire_at := 100 }],
             cursors := [{ id := 1, queue := "q", offset := 0, locked := false,
                           expire_lock_at := none }],
             nextTaskId := 1 } : DBState).cursors,
      c.queue = "q" → c.locked = false →
        c.offset < ({ id := 5, event_name := "ev", event_data := .null, pos := 1,
                      created_at := 0, expire_at := 100 } : EventRow).pos :=
  (fanout_cursor_monotone
      { tasks := [], archive := [],
        events := [{ id := 5, event_name := "ev", event_data := .null, pos := 1,
                     created_at := 0, expire_at := 100 }],
        cursors := [{ id := 1, queue := "q", offset := 0, locked := false,
                      expire_lock_at := none }],
        nextTaskId := 1 }
      (by simp)).2.1 0 "q" 10
    { id := 5, event_name := "ev", event_data := .null, pos := 1,
      created_at := 0, expire_at := 100 }
    (by simp [getCursorLockEvents, List.insertionSort, List.orderedInsert])

/-- The active table after `resolve_tasks`. -/
theorem resolve_tasks_tasks (now : Time) (inputs : List ResolveInput) (db : DBState) :
    (resolve_tasks now inputs db).tasks =
      (db.tasks.filter (fun t => !resolveDeletes inputs t)).map (retryUpdate now inputs) :=
  rfl

/-- The archive after `resolve_tasks`. -/
theorem resolve_tasks_archive (now : Time) (inputs : List ResolveInput) (db : DBState) :
    (resolve_tasks now inputs db).archive =
      db.archive ++ (db.tasks.filter (resolveDeletes inputs)).flatMap (fun t =>
        (inputs.filter (fun i => i.task_id == t.id)).map (archivedRow now t)) :=
  rfl

/-- The in-place retry update never changes a row's id. -/
theorem retryUpdate_id (now : Time) (inputs : List ResolveInput) (t : TaskRow) :
    (retryUpdate now inputs t).id = t.id := by
  unfold retryUpdate
  cases inputs.find? (fun i => i.task_id == t.id && i.new_state == TASK_STATES.retry) with
  | none => rfl
  | some i =>
    by_cases h : (t.state == TASK_STATES.active) = true <;> simp [h]

/-- The retry update either leaves the row unchanged or moves an `active`
row to `retry` for an input naming it with `new_state = retry`. -/
theorem retryUpdate_cases (now : Time) (inputs : List ResolveInput) (t : TaskRow) :
    retryUpdate now inputs t = t ∨
    (t.state = TASK_STATES.active ∧
      (retryUpdate now inputs t).state = TASK_STATES.retry ∧
      ∃ i ∈ inputs, i.task_id = t.id ∧ i.new_state = TASK_STATES.retry) := by
  unfold retryUpdate
  cases hf : inputs.find? (fun i => i.task_id == t.id && i.new_state == TASK_STATES.retry) with
  | none => exact Or.inl rfl
  | some i =>
    have hmem := List.mem_of_find?_eq_some hf
    have hpred := List.find?_some hf
    simp only [Bool.and_eq_true, beq_iff_eq] at hpred
    dsimp only
    by_cases hst : (t.state == TASK_STATES.active) = true
    · rw [if_pos hst]
      exact Or.inr ⟨beq_iff_eq.mp hst, rfl, i, hmem, hpred.1, hpred.2⟩
    · rw [if_neg hst]
      exact Or.inl rfl

/-- Decoding the deletion predicate of `resolve_tasks`. -/
theorem resolveDeletes_iff (inputs : List ResolveInput) (t : TaskRow) :
    resolveDeletes inputs t = true ↔
      t.state = TASK_STATES.active ∧
      ∃ i ∈ inputs, i.task_id = t.id ∧ TASK_STATES.active < i.new_state := by
  simp [resolveDeletes, List.any_eq_true]

/-- The id of a row of the new active table exists there exactly when some
old row with that id survived the deletion. -/
theorem hasTaskRow_resolve_iff (now : Time) (inputs : List ResolveInput)
    (db : DBState) (id : Nat) :
    hasTaskRow (resolve_tasks now inputs db) id ↔
      ∃ t ∈ db.tasks, t.id = id ∧ resolveDeletes inputs t = false := by
  unfold hasTaskRow
  rw [resolve_tasks_tasks]
  constructor
  · rintro ⟨t', ht', rfl⟩
    rw [List.mem_map] at ht'
    obtain ⟨t, htf, rfl⟩ := ht'
    have h := List.mem_filter.mp htf
    exact ⟨t, h.1, (retryUpdate_id now inputs t).symm ▸ rfl,
      by simpa using h.2⟩
  · rintro ⟨t, ht, rfl, hdel⟩
    refine ⟨retryUpdate now inputs t, ?_, retryUpdate_id now inputs t⟩
    exact List.mem_map_of_mem _ (List.mem_filter.mpr ⟨ht, by simp [hdel]⟩)

/-- Membership in the rows newly inserted into the archive. -/
theorem mem_resolve_archNew (now : Time) (inputs : List ResolveInput)
    (db : DBState) (a : ArchiveRow) :
    a ∈ (db.tasks.filter (resolveDeletes inputs)).flatMap (fun t =>
        (inputs.filter (fun i => i.task_id == t.id)).map (archivedRow now t)) ↔
      ∃ t ∈ db.tasks, resolveDeletes inputs t = true ∧
        ∃ i ∈ inputs, i.task_id = t.id ∧ a = archivedRow now t i := by
  simp only [List.mem_flatMap, List.mem_map, List.mem_filter, beq_iff_eq]
  constructor
  · rintro ⟨t, ⟨ht, hdel⟩, i, ⟨hi, hit⟩, rfl⟩
    exact ⟨t, ht, hdel, i, hi, hit, rfl⟩
  · rintro ⟨t, ht, hdel, i, hi, hit, rfl⟩
    exact ⟨t, ⟨ht, hdel⟩, i, ⟨hi, hit⟩, rfl⟩

/-- Inputs with pairwise-distinct task ids agree when they name the same id. -/
theorem resolveInput_unique {inputs : List ResolveInput}
    (hids : inputs.Pairwise (fun a b => a.task_id ≠ b.task_id)) :
    ∀ i ∈ inputs, ∀ j ∈ inputs, i.task_id = j.task_id → i = j := by
  intro i hi j hj hij
  by_contra hne
  have hsymm : Symmetric (fun a b : ResolveInput => a.task_id ≠ b.task_id) := by
    intro a b h heq
    exact h heq.symm
  exact hids.forall hsymm hi hj hne hij

/-- C2: `resolve_tasks` preserves the per-task exclusivity invariant — for
every present task id, exactly one of {terminal archive row} or {active-table
row with state in {created, retry, active}} holds; it deletes from the
active table only rows that are currently `active` and named by an input with
new state greater than `active`; it inserts into the archive only such
deleted rows, stamped with the input's (terminal) new state; and the retry
branch updates rows in place only from `active` to `retry`.  The inputs are
assumed to carry pairwise-distinct ids (the resolve batch is keyed by task
id) and valid states (the `TASK_STATES` range). -/
theorem resolve_tasks_exclusive (now : Time) (inputs : List ResolveInput)
    (db : DBState) (hwf : resolveWf db)
    (hids : inputs.Pairwise (fun a b => a.task_id ≠ b.task_id))
    (hstates : ∀ i ∈ inputs, i.new_state ≤ TASK_STATES.failed) :
    resolveWf (resolve_tasks now inputs db) ∧
    (∀ t ∈ db.tasks, ¬ hasTaskRow (resolve_tasks now inputs db) t.id →
      t.state = TASK_STATES.active ∧
      ∃ i ∈ inputs, i.task_id = t.id ∧ TASK_STATES.active < i.new_state) ∧
    (∀ a ∈ (resolve_tasks now inputs db).archive, a ∈ db.archive ∨
      ∃ t ∈ db.tasks, t.id = a.id ∧ t.state = TASK_STATES.active ∧
        ∃ i ∈ inputs, i.task_id = t.id ∧ TASK_STATES.active < i.new_state ∧
          a.state = i.new_state) ∧
    (∀ t' ∈ (resolve_tasks now inputs db).tasks, ∃ t ∈ db.tasks, t'.id = t.id ∧
      (t' = t ∨ (t.state = TASK_STATES.active ∧ t'.state = TASK_STATES.retry ∧
        ∃ i ∈ inputs, i.task_id = t.id ∧ i.new_state = TASK_STATES.retry))) := by
  refine ⟨⟨?_, ?_⟩, ?_, ?_, ?_⟩
  · -- ids stay unique in the active table
    rw [resolve_tasks_tasks, List.map_map]
    have hcongr : (db.tasks.filter (fun t => !resolveDeletes inputs t)).map
        ((fun t : TaskRow => t.id) ∘ retryUpdate now inputs) =
        (db.tasks.filter (fun t => !resolveDeletes inputs t)).map (fun t => t.id) :=
      List.map_congr_left (fun t _ => retryUpdate_id now inputs t)
    rw [hcongr]
    exact hwf.1.sublist ((List.filter_sublist _).map _)
  · -- exclusivity is preserved
    intro id hpresent
    have htasks' := hasTaskRow_resolve_iff now inputs db id
    by_cases hsurv : ∃ t ∈ db.tasks, t.id = id ∧ resolveDeletes inputs t = false
    · obtain ⟨t, ht, htid, hdel⟩ := hsurv
      have hexcl_old := hwf.2 id (Or.inl ⟨t, ht, htid⟩)
      have hnoarch_old : ¬ hasArchiveRow db id := by
        rcases hexcl_old with ⟨_, hnotask⟩ | ⟨_, hnoarch⟩
        · exact absurd ⟨t, ht, htid⟩ hnotask
        · exact hnoarch
      have hactive_old : activeRowOk db id := by
        rcases hexcl_old with ⟨_, hnotask⟩ | ⟨hok, _⟩
        · exact absurd ⟨t, ht, htid⟩ hnotask
        · exact hok
      obtain ⟨s, hs, hsid, hsstate⟩ := hactive_old
      have hst : s = t := List.inj_on_of_nodup_map hwf.1 hs ht (hsid.trans htid.symm)
      rw [hst] at hsstate
      refine Or.inr ⟨⟨retryUpdate now inputs t, ?_, ?_, ?_⟩, ?_⟩
      · rw [resolve_tasks_tasks]
        exact List.mem_map_of_mem _ (List.mem_filter.mpr ⟨ht, by simp [hdel]⟩)
      · rw [retryUpdate_id]; exact htid
      · rcases retryUpdate_cases now inputs t with heq | ⟨_, hstate, _⟩
        · rw [heq]; exact hsstate
        · rw [hstate]; decide
      · rintro ⟨a, ha, haid⟩
        rw [resolve_tasks_archive] at ha
        rcases List.mem_append.mp ha with haold | hanew
        · exact hnoarch_old ⟨a, haold, haid⟩
        · obtain ⟨t2, ht2, hdel2, i, hi, hit, rfl⟩ :=
            (mem_resolve_archNew now inputs db a).mp hanew
          have ht2eq : t2 = t :=
            List.inj_on_of_nodup_map hwf.1 ht2 ht (haid.trans htid.symm)
          rw [ht2eq, hdel] at hdel2
          exact absurd hdel2 (by simp)
    · have hnotask' : ¬ hasTaskRow (resolve_tasks now inputs db) id := by
        rw [htasks']; exact hsurv
      have hhasarch' : hasArchiveRow (resolve_tasks now inputs db) id := by
        rcases hpresent with h | h
        · exact absurd h hnotask'
        · exact h
      obtain ⟨a, ha, haid⟩ := hhasarch'
      rw [resolve_tasks_archive] at ha
      rcases List.mem_append.mp ha with haold | hanew
      · have hexcl_old := hwf.2 id (Or.inr ⟨a, haold, haid⟩)
        have hterm : archiveRowTerminal db id := by
          rcases hexcl_old with ⟨h, _⟩ | ⟨_, hnoarch⟩
          · exact h
          · exact absurd ⟨a, haold, haid⟩ hnoarch
        obtain ⟨a2, ha2, ha2id, ha2t⟩ := hterm
        exact Or.inl ⟨⟨a2, by
          rw [resolve_tasks_archive]; exact List.mem_append_left _ ha2, ha2id, ha2t⟩,
          hnotask'⟩
      · obtain ⟨t, ht, hdel, i, hi, hit, rfl⟩ :=
          (mem_resolve_archNew now inputs db a).mp hanew
        obtain ⟨hstate2, j, hj, hjt, hjgt⟩ := (resolveDeletes_iff inputs t).mp hdel
        have hij : i = j := resolveInput_unique hids i hi j hj (hit.trans hjt.symm)
        refine Or.inl ⟨⟨archivedRow now t i, ?_, haid, ?_, ?_⟩, hnotask'⟩
        · rw [resolve_tasks_archive]; exact List.mem_append_right _ hanew
        · show TASK_STATES.completed ≤ i.new_state
          rw [hij]
          unfold TASK_STATES.completed
          have : TASK_STATES.active < j.new_state := hjgt
          unfold TASK_STATES.active at this
          omega
        · show i.new_state ≤ TASK_STATES.failed
          exact hstates i hi
  · -- deletes only active rows named with a post-active new state
    intro t ht hnot
    rw [hasTaskRow_resolve_iff] at hnot
    have hdel : resolveDeletes inputs t = true := by
      by_contra h
      exact hnot ⟨t, ht, rfl, by simpa using h⟩
    exact (resolveDeletes_iff inputs t).mp hdel
  · -- inserts only deleted rows with the input's terminal state
    intro a ha
    rw [resolve_tasks_archive] at ha
    rcases List.mem_append.mp ha with haold | hanew
    · exact Or.inl haold
    · obtain ⟨t, ht, hdel, i, hi, hit, rfl⟩ :=
        (mem_resolve_archNew now inputs db a).mp hanew
      obtain ⟨hstate2, j, hj, hjt, hjgt⟩ := (resolveDeletes_iff inputs t).mp hdel
      have hij : i = j := resolveInput_unique hids i hi j hj (hit.trans hjt.symm)
      exact Or.inr ⟨t, ht, rfl, hstate2, i, hi, hit, hij ▸ hjgt, rfl⟩
  · -- in-place updates only move active rows back to retry
    intro t' ht'
    rw [resolve_tasks_tasks] at ht'
    rw [List.mem_map] at ht'
    obtain ⟨t, htf, rfl⟩ := ht'
    have ht := (List.mem_filter.mp htf).1
    refine ⟨t, ht, retryUpdate_id now inputs t, ?_⟩
    rcases retryUpdate_cases now inputs t with heq | ⟨hact, hstate, i, hi, hit, his⟩
    · exact Or.inl heq
    · exact Or.inr ⟨hact, hstate, i, hi, hit, his⟩

/-- Witness for C2: resolving a single active task to `completed` removes it
from the active table, and the removal is justified by its active state and
the post-active input naming it. -/
theorem resolve_tasks_exclusive_witness :
    2 = TASK_STATES.active ∧
    ∃ i ∈ [({ task_id := 1, new_state := 3, out := none, saf := none } : ResolveInput)],
      i.task_id = 1 ∧ TASK_STATES.active < i.new_state := by
  have hwf0 : resolveWf
      { tasks := [{ id := 1, queue := "q", state := 2, data := .null,
                    meta_data := { tn := "t", trace := none },
                    config := { r_l := 3, r_d := 5, r_b := false, ki_s := none },
                    retrycount := 0, startedOn := some 1, createdOn := 0, startAfter := 0,
                    expireIn := 300, singleton_key := none, output := none }],
        archive := [], events := [], cursors := [], nextTaskId := 2 } := by
    refine ⟨by simp, ?_⟩
    intro id h
    rcases h with ⟨t, ht, htid⟩ | ⟨a, ha, _⟩
    · simp only [List.mem_singleton] at ht
      subst ht
      refine Or.inr ⟨⟨_, List.mem_singleton_self _, htid, by decide⟩, ?_⟩
      rintro ⟨a, ha, _⟩
      simp at ha
    · simp at ha
  refine (resolve_tasks_exclusive 5
      [{ task_id := 1, new_state := 3, out := none, saf := none }]
      _ hwf0 (by simp) (by decide)).2.1 _ (List.mem_singleton_self _) ?_
  rintro ⟨t', ht', _⟩
  simp only [resolve_tasks_tasks, resolveDeletes, List.mem_map, List.mem_filter] at ht'
  obtain ⟨a, ⟨ha, hbad⟩, -⟩ := ht'
  simp only [List.mem_singleton] at ha
  subst ha
  simp [TASK_STATES.active] at hbad

end TaskBoss
